import Mathlib

/-!
Verification of the dependency-free resume document renderer
(`resume_app/converter.py`): the section-state-machine parser
(`parse_resume`), the contact classifier (`build_contact_items`), the
text-substitution and escaping helpers (`_pdf_safe_text`,
`_pdf_escape_text`), the greedy word-wrapper (`_wrap_pdf_text`) and the
binary encoder tail of `_render_pdf_builtin` (object table,
cross-reference table, trailer).

Strings are modelled as Lean `String`s, with the character-level core on
`List Char`; byte buffers are modelled as `List Char` where each
character stands for the single byte it encodes to (all structural
tokens are ASCII, and both cp1252 and latin-1 encode one byte per
character of the texts involved). Python integer-valued floats used by
the layout arithmetic are modelled as `ℚ` (the concrete constants
involved are exactly representable and far from rounding ties).
-/

namespace Resume

/-- Characters treated as whitespace by Python `str.strip` / `str.split`
(Unicode whitespace; the listed set covers all whitespace codepoints that
can occur in cp1252-compatible text plus the common Unicode spaces). -/
def isPySpace (c : Char) : Bool :=
  c = ' ' || c = '\t' || c = '\n' || c = '\r' || c.val = 0x0b || c.val = 0x0c ||
  c.val = 0x1c || c.val = 0x1d || c.val = 0x1e || c.val = 0x1f ||
  c.val = 0x85 || c.val = 0xa0 || c.val = 0x1680 ||
  (0x2000 ≤ c.val && c.val ≤ 0x200a) ||
  c.val = 0x2028 || c.val = 0x2029 || c.val = 0x202f || c.val = 0x205f ||
  c.val = 0x3000

/-- Left strip, as in Python `str.lstrip()`. -/
def lstripL (l : List Char) : List Char := l.dropWhile isPySpace

/-- Right strip, as in Python `str.rstrip()`. -/
def rstripL (l : List Char) : List Char := (l.reverse.dropWhile isPySpace).reverse

/-- Python `str.strip()` on the character list. -/
def stripL (l : List Char) : List Char := rstripL (lstripL l)

/-- Python `str.strip()`. -/
def pyStrip (s : String) : String := ⟨stripL s.data⟩

/-- Python `str.lower()` (ASCII case mapping; the labels and keys the
code compares are ASCII). -/
def pyLower (s : String) : String := ⟨s.data.map Char.toLower⟩

/-- One step of Python `str.title()`: a letter is uppercased when the
previous character is not a letter, lowercased otherwise. -/
def pyTitleGo : Bool → List Char → List Char
  | _, [] => []
  | prevAlpha, c :: rest =>
    (if c.isAlpha then (if prevAlpha then c.toLower else c.toUpper) else c)
      :: pyTitleGo c.isAlpha rest

/-- Python `str.title()` (ASCII letters). -/
def pyTitle (s : String) : String := ⟨pyTitleGo false s.data⟩

/-- Python `str.startswith(pre)`, as a kernel-reducible prefix test on
the character lists. -/
def startsW (s pre : String) : Bool := pre.data.isPrefixOf s.data

/-- Membership of a string in a list, as a kernel-reducible boolean
(used for the `in`/`not in` tests of the Python code). -/
def strMem (s : String) (l : List String) : Bool := l.any (fun x => x = s)

/-- Membership of a string pair in a list, as a kernel-reducible boolean
(used for the `seen` de-duplication sets). -/
def pairMem (p : String × String) (l : List (String × String)) : Bool :=
  l.any (fun q => q = p)

/-- Python `str.rstrip(":")`: remove trailing colons. -/
def rstripColons (s : String) : String :=
  ⟨(s.data.reverse.dropWhile (fun c => c = ':')).reverse⟩

/-- Whitespace splitter, Python `str.split()` with no separator: runs of
whitespace separate the tokens, leading/trailing whitespace ignored.
`acc` holds the characters of the token in progress, reversed. -/
def splitWsGo (acc : List Char) : List Char → List (List Char)
  | [] => if acc = [] then [] else [acc.reverse]
  | c :: rest =>
    if isPySpace c then
      if acc = [] then splitWsGo [] rest else acc.reverse :: splitWsGo [] rest
    else splitWsGo (c :: acc) rest

/-- Python `str.split()` at the character-list level. -/
def splitWsL (l : List Char) : List (List Char) := splitWsGo [] l

/-- Python `str.split()` returning strings. -/
def pySplitWs (s : String) : List String := (splitWsL s.data).map (⟨·⟩)

/-- Join a nonempty word list with single spaces (`" ".join`). -/
def joinSpace : List (List Char) → List Char
  | [] => []
  | [w] => w
  | w :: rest => w ++ ' ' :: joinSpace rest

/-- Bullet glyphs recognized by the converter: `*`, `•`, `-`. -/
def isGlyph (c : Char) : Bool := c = '*' || c = '•' || c = '-'

/-- The glyph-stripping loop of `clean_bullet_text`: while the string
starts with a bullet glyph, drop it and strip again.  The loop runs on an
already-stripped string and each iteration shortens it, so `fuel` set to
the length is enough. -/
def bulletLoop : Nat → List Char → List Char
  | _, [] => []
  | 0, l => l
  | fuel + 1, c :: rest =>
    if isGlyph c then bulletLoop fuel (stripL rest) else c :: rest

/-- Python `clean_bullet_text` (also inlined in `flush_buffer`): strip,
then repeatedly drop one leading bullet glyph and strip again. -/
def cleanBullet (s : String) : String :=
  ⟨bulletLoop s.data.length (stripL s.data)⟩

/-- Whether a line starts with a bullet glyph (`startswith(('*','-','•'))`
after stripping, as tested on `header_clean`). -/
def startsGlyph (s : String) : Bool :=
  match s.data with
  | [] => false
  | c :: _ => isGlyph c

/-- Python `re.search(r"\d{4}", s)`: the string contains four consecutive
ASCII digits (`\d` restricted to `0-9`; the durations involved are ASCII). -/
def hasFourDigitRun : List Char → Bool
  | [] => false
  | c :: rest =>
    (c.isDigit && (match rest with
      | a :: b :: d :: _ => a.isDigit && b.isDigit && d.isDigit
      | _ => false)) || hasFourDigitRun rest

/-- String-level wrapper for the 4-digit-run test. -/
def containsFourDigits (s : String) : Bool := hasFourDigitRun s.data

end Resume

namespace Resume

/-- Python single-character `str.replace(old, new)`: each occurrence of
the character `tgt` is replaced by `rep` (left to right; for a
one-character needle this is a per-character substitution). -/
def replace1 (tgt : Char) (rep : List Char) : List Char → List Char
  | [] => []
  | c :: rest => (if c = tgt then rep else [c]) ++ replace1 tgt rep rest

/-- Character class `[A-Za-z0-9._%+-]` (local part of the e-mail regex). -/
def isEmailA (c : Char) : Bool :=
  c.isAlpha || c.isDigit || c = '.' || c = '_' || c = '%' || c = '+' || c = '-'

/-- Character class `[A-Za-z0-9.-]` (domain part of the e-mail regex). -/
def isEmailB (c : Char) : Bool :=
  c.isAlpha || c.isDigit || c = '.' || c = '-'

/-- Python `re.findall(r"[A-Za-z0-9._%+-]+@[A-Za-z0-9.-]+", value)`:
left-to-right scan for non-overlapping leftmost matches.  A match can
only begin at an `A`-class character; greedy `+` takes the maximal runs,
and when the maximal `A`-run is not followed by `@` plus a nonempty
`B`-run no shorter start inside the run can match either, so the scan
resumes after the run and the failing character.  Each step consumes at
least one character, so fuel equal to the length suffices. -/
def findEmailsGo : Nat → List Char → List String
  | 0, _ => []
  | _, [] => []
  | fuel + 1, c :: rest =>
    if ¬ isEmailA c then findEmailsGo fuel rest
    else
      let run := (c :: rest).takeWhile isEmailA
      match (c :: rest).dropWhile isEmailA with
      | '@' :: t =>
        let brun := t.takeWhile isEmailB
        if brun = [] then findEmailsGo fuel t
        else (⟨run ++ '@' :: brun⟩ : String) :: findEmailsGo fuel (t.drop brun.length)
      | _ :: t => findEmailsGo fuel t
      | [] => []

/-- E-mail token extraction from a value string. -/
def findEmails (s : String) : List String := findEmailsGo s.data.length s.data

/-- Python `re.sub(r"mailto:\s*", '', value, flags=IGNORECASE)`: every
case-insensitive occurrence of `mailto:` plus the following whitespace
run is removed; the scan otherwise copies one character at a time.  Each
step consumes at least one character, so fuel equal to the length
suffices. -/
def removeMailtoGo : Nat → List Char → List Char
  | 0, l => l
  | _, [] => []
  | fuel + 1, c :: rest =>
    if (List.take 7 (c :: rest)).map Char.toLower = "mailto:".data then
      removeMailtoGo fuel (List.dropWhile isPySpace (List.drop 7 (c :: rest)))
    else c :: removeMailtoGo fuel rest

/-- `mailto:` prefix removal over a whole string. -/
def removeMailto (s : String) : String := ⟨removeMailtoGo s.data.length s.data⟩

/-- The bracket removal `value.replace('<','').replace('>','')
.replace('[','').replace(']','')`. -/
def stripBrackets (s : String) : String :=
  ⟨replace1 ']' [] (replace1 '[' [] (replace1 '>' [] (replace1 '<' [] s.data)))⟩

/-- First-seen-order de-duplication (`if email not in unique_emails`),
with the already-kept elements accumulated in `seen`. -/
def dedupKeep (seen : List String) : List String → List String
  | [] => []
  | e :: rest =>
    if strMem e seen then dedupKeep seen rest else e :: dedupKeep (e :: seen) rest

/-- First-seen-order de-duplication of the found e-mail tokens. -/
def dedupList (l : List String) : List String := dedupKeep [] l

/-- `" / ".join(...)` (and any other separator join). -/
def joinSep (sep : String) : List String → String
  | [] => ""
  | [x] => x
  | x :: rest => x ++ sep ++ joinSep sep rest

/-- The value after mailto and bracket stripping, from which e-mail
tokens are extracted. -/
def emailCleanValue (v : String) : String := stripBrackets (removeMailto v)

/-- The e-mail branch of `build_contact_items`: strip `mailto:`, strip
brackets, extract tokens, de-duplicate preserving first-seen order and
join with `" / "`; if no token is found the stripped value is kept. -/
def processEmailValue (v : String) : String :=
  let v2 := emailCleanValue v
  let found := findEmails v2
  if found ≠ [] then joinSep " / " (dedupList found) else v2

/-- Python `value.rstrip(', ')`. -/
def rstripCommaSpace (s : String) : String :=
  ⟨(s.data.reverse.dropWhile (fun c => c = ',' || c = ' ')).reverse⟩

/-- Python `str.endswith(suffix)`. -/
def pyEndsWith (s suf : String) : Bool :=
  suf.data.reverse.isPrefixOf s.data.reverse

/-- The address branch of `build_contact_items`: trim trailing commas and
spaces, then append `", India"` (or `" India"` after a period) unless the
value already ends with `india` case-insensitively. -/
def processAddressValue (v : String) : String :=
  let v1 := rstripCommaSpace v
  if v1 ≠ "" && ¬ pyEndsWith (pyLower v1) "india" then
    if ¬ pyEndsWith v1 "." then v1 ++ ", India" else v1 ++ " India"
  else v1

/-- A typed contact fact: `{label, label_key, value}`. -/
structure ContactFact where
  label : String
  label_key : String
  value : String
deriving DecidableEq, Repr

/-- Python `line.split(':', 1)` first component. -/
def beforeColon (s : String) : String := ⟨s.data.takeWhile (fun c => c ≠ ':')⟩

/-- Python `line.split(':', 1)` second component (for a line containing a
colon). -/
def afterColon (s : String) : String :=
  match s.data.dropWhile (fun c => c ≠ ':') with
  | [] => ""
  | _ :: t => ⟨t⟩

/-- Whether the line contains a colon (`':' in line`). -/
def hasColon (s : String) : Bool := s.data.any (fun c => c = ':')

/-- Whether a raw contact line is skipped as a company-name line
(`line.lower().startswith('company name:')` after stripping). -/
def isCompanyLine (raw : String) : Bool :=
  startsW (pyLower (pyStrip raw)) "company name:"

/-- The body of `build_contact_items`, with the `seen` de-duplication set
(pairs `(label_key, value.lower())`) made explicit. -/
def buildGo (seen : List (String × String)) : List String → List ContactFact
  | [] => []
  | raw :: rest =>
    let line := pyStrip raw
    if line = "" || startsW (pyLower line) "company name:" then
      buildGo seen rest
    else
      let line := cleanBullet line
      if hasColon line then
        let label := pyTitle (pyStrip (beforeColon line))
        let value := pyStrip (afterColon line)
        if value = "" then buildGo seen rest
        else
          let lk := pyLower label
          let value :=
            if lk = "email" then processEmailValue value
            else if lk = "address" then processAddressValue value
            else value
          if value ≠ "" && !pairMem (lk, pyLower value) seen then
            ⟨label, lk, value⟩ :: buildGo ((lk, pyLower value) :: seen) rest
          else buildGo seen rest
      else
        if line ≠ "" && !pairMem ("", pyLower line) seen then
          ⟨"", "", line⟩ :: buildGo (("", pyLower line) :: seen) rest
        else buildGo seen rest

/-- Python `build_contact_items(contact_lines)`. -/
def buildContactItems (lines : List String) : List ContactFact := buildGo [] lines

end Resume

namespace Resume

/-- One parsed experience entry. -/
structure ExperienceEntry where
  header : String
  duration : Option String
  bullets : List String
deriving DecidableEq, Repr

/-- The parsed document model built by `parse_resume` (the `data` dict). -/
structure ResumeData where
  name : String := ""
  contact : List String := []
  title : String := ""
  summary : String := ""
  experience : List ExperienceEntry := []
  skills : List String := []
  skills_raw : String := ""
  certifications : List String := []
  education : List String := []
  company : String := ""
deriving DecidableEq, Repr

/-- Line-break characters recognized by Python `str.splitlines()`. -/
def isLineBreak (c : Char) : Bool :=
  c = '\n' || c = '\r' || c.val = 0x0b || c.val = 0x0c ||
  c.val = 0x1c || c.val = 0x1d || c.val = 0x1e || c.val = 0x85 ||
  c.val = 0x2028 || c.val = 0x2029

/-- Python `str.splitlines()` body: break at each line-break character,
treat `\r\n` as a single break, and do not produce a final empty line for
a trailing break. -/
def splitlinesGo (acc : List Char) : List Char → List (List Char)
  | [] => [acc.reverse]
  | [c] => if isLineBreak c then [acc.reverse] else [(c :: acc).reverse]
  | c1 :: c2 :: rest =>
    if c1 = '\r' && c2 = '\n' then
      match rest with
      | [] => [acc.reverse]
      | _ :: _ => acc.reverse :: splitlinesGo [] rest
    else if isLineBreak c1 then acc.reverse :: splitlinesGo [] (c2 :: rest)
    else splitlinesGo (c1 :: acc) (c2 :: rest)

/-- Python `str.splitlines()` (`[]` on the empty string). -/
def pySplitlines (s : String) : List String :=
  match s.data with
  | [] => []
  | l => (splitlinesGo [] l).map (⟨·⟩)

/-- Python `text.split("\n\n")`: split on each non-overlapping
occurrence of two consecutive newlines, scanning left to right. -/
def splitNNGo (acc : List Char) : List Char → List (List Char)
  | [] => [acc.reverse]
  | [c] => [(c :: acc).reverse]
  | c1 :: c2 :: rest =>
    if c1 = '\n' && c2 = '\n' then acc.reverse :: splitNNGo [] rest
    else splitNNGo (c1 :: acc) (c2 :: rest)

/-- Python `text.split("\n\n")` on strings. -/
def splitNN (s : String) : List String := (splitNNGo [] s.data).map (⟨·⟩)

/-- The per-block experience parser inside `flush_buffer`, applied to the
non-blank lines of one blank-line-separated block (`lines_p`), split into
its first line and the remaining lines.  The second line becomes the
duration exactly when it contains a 4-digit run; remaining lines are
glyph-stripped into bullets (dropping lines that strip to nothing); a
first line starting with a bullet glyph is moved, stripped, to the front
of the bullets and the header is emptied. -/
def parseExpBlock (first : String) (rest : List String) : ExperienceEntry :=
  let dur :=
    match rest with
    | second :: rest2 =>
      if containsFourDigits second then (some second, rest2)
      else (none, second :: rest2)
    | [] => (none, ([] : List String))
  let bullets0 := (dur.2.map cleanBullet).filter (· ≠ "")
  if startsGlyph (pyStrip first) then
    { header := "",
      duration := dur.1,
      bullets :=
        if cleanBullet first = "" then bullets0 else cleanBullet first :: bullets0 }
  else { header := first, duration := dur.1, bullets := bullets0 }

/-- The experience-section flush: split the buffered text on blank lines
(`"\n\n"`), strip each part, drop empty parts, and parse each part's
non-blank lines as one experience block. -/
def expBlocks (text : String) : List ExperienceEntry :=
  (((splitNN text).map pyStrip).filter (· ≠ "")).filterMap (fun p =>
    match (pySplitlines p).filter (fun ln => pyStrip ln ≠ "") with
    | [] => none
    | first :: rest => some (parseExpBlock first rest))

/-- The camel-case repair `re.sub(r'([a-z])([A-Z])', r'\1 \2', s)`: a
space is inserted between a lowercase letter and a following uppercase
letter. -/
def camelFix : List Char → List Char
  | [] => []
  | a :: rest =>
    a :: ((if (match rest with
               | b :: _ => a.isLower && b.isUpper
               | [] => false) then [' '] else []) ++ camelFix rest)

/-- Separator class of `re.split(r"[-,\n;]+", ...)`. -/
def isSkillSep (c : Char) : Bool := c = '-' || c = ',' || c = '\n' || c = ';'

/-- Python `re.split(r"[-,\n;]+", s)`: maximal separator runs delimit the
parts; a leading or trailing run produces an empty part, `skipping`
records that the scan is inside a separator run. -/
def reSplitGo (skipping : Bool) (acc : List Char) : List Char → List (List Char)
  | [] => [acc.reverse]
  | c :: rest =>
    if isSkillSep c then
      if skipping then reSplitGo true [] rest
      else acc.reverse :: reSplitGo true [] rest
    else reSplitGo false (c :: acc) rest

/-- The skills-section flush: strip the nonblank lines, remove leading
bullet glyphs, keep them newline-joined as `skills_raw`, then derive the
legacy flattened list by splitting on `-,;` and newlines, trimming, and
repairing concatenated camel-case tokens. -/
def skillsProcess (text : String) : String × List String :=
  let lines := ((pySplitlines text).map pyStrip).filter (· ≠ "")
  let cleaned_lines := lines.map cleanBullet
  let skills_raw := joinSep "\n" cleaned_lines
  let raw_skills := (reSplitGo false [] skills_raw.data).map (⟨·⟩)
  let cleaned :=
    (((raw_skills.map pyStrip).filter (· ≠ "")).map (fun s => (⟨camelFix s.data⟩ : String)))
  (skills_raw, cleaned)

/-- The certifications/education flush: strip each line, remove leading
bullet glyphs, keep the nonempty results as entries. -/
def certEduLines (text : String) : List String :=
  ((pySplitlines text).map cleanBullet).filter (· ≠ "")

/-- The parser's section states. -/
inductive Sect where
  | summary
  | experience
  | skills
  | certifications
  | education
deriving DecidableEq, Repr

/-- Python `flush_buffer(sec, buf)`: join the buffer, strip it, and if
nonempty store it into the field selected by the active section (no
section: the buffer is discarded). -/
def flushBuffer (sec : Option Sect) (buf : List String) (d : ResumeData) : ResumeData :=
  let text := pyStrip (joinSep "\n" buf)
  if text = "" then d
  else
    match sec with
    | none => d
    | some .summary => { d with summary := text }
    | some .experience => { d with experience := d.experience ++ expBlocks text }
    | some .skills =>
      let p := skillsProcess text
      { d with skills_raw := p.1, skills := p.2 }
    | some .certifications => { d with certifications := certEduLines text }
    | some .education => { d with education := certEduLines text }

/-- The lowercased, colon-stripped key of a line, used for section
dispatch (`ln.lower().rstrip(":")` on the stripped line). -/
def lineKey (line : String) : String := rstripColons (pyLower (pyStrip line))

/-- The section scan of `parse_resume`: a recognized key switches the
active section (flushing the previous buffer); any other line is
accumulated (stripped) into the buffer; the final buffer is flushed at
the end. -/
def sectionLoop (sec : Option Sect) (buf : List String) (d : ResumeData) :
    List String → ResumeData
  | [] => flushBuffer sec buf d
  | line :: rest =>
    let ln := pyStrip line
    let key := rstripColons (pyLower ln)
    if key = "professional summary" || key = "summary" then
      sectionLoop (some .summary) [] (flushBuffer sec buf d) rest
    else if key = "professional experience" || key = "experience" then
      sectionLoop (some .experience) [] (flushBuffer sec buf d) rest
    else if key = "technical skills" || key = "skills" then
      sectionLoop (some .skills) [] (flushBuffer sec buf d) rest
    else if startsW key "certificat" then
      sectionLoop (some .certifications) [] (flushBuffer sec buf d) rest
    else if key = "education" || key = "qualification" then
      sectionLoop (some .education) [] (flushBuffer sec buf d) rest
    else sectionLoop sec (buf ++ [ln]) d rest

/-- The known section keys checked by the title heuristic. -/
def KNOWN_SECTION_KEYS : List String :=
  ["professional summary", "summary", "professional experience", "experience",
   "technical skills", "skills", "certifications", "certification",
   "education", "qualification"]

/-- The company-field scan over the collected (stripped) contact lines: a
line starting with `company name:` (case-insensitively) with a nonempty
remainder after the first colon sets the company to that remainder,
stripped; later occurrences overwrite earlier ones. -/
def companyFold (acc : String) : List String → String
  | [] => acc
  | c :: rest =>
    if startsW (pyLower c) "company name:" then
      let value := afterColon c
      if value ≠ "" then companyFold (pyStrip value) rest else companyFold acc rest
    else companyFold acc rest

/-- Insertion of one synthetic blank line after each contact line that
starts with `nationality:` whose successor is not already blank. -/
def nationalityInsert : List String → List String
  | [] => []
  | c :: rest =>
    let isNat := startsW (pyLower (pyStrip c)) "nationality:"
    let nextBlank :=
      match rest with
      | n :: _ => decide (pyStrip n = "")
      | [] => false
    if isNat && !nextBlank then c :: "" :: nationalityInsert rest
    else c :: nationalityInsert rest

/-- The run of single-visible-character lines following the name line
(the vertically-spelled-name special case). -/
def singlesOf (rest : List String) : List String :=
  rest.takeWhile (fun l => (pyStrip l).length = 1)

/-- The document name: the stripped first non-blank line, concatenated
with the following single-character lines when there are any. -/
def nameOf (first : String) (rest : List String) : String :=
  if singlesOf rest ≠ [] then
    String.join (pyStrip first :: (singlesOf rest).map pyStrip)
  else pyStrip first

/-- The lines remaining after the name block. -/
def remAfterName (rest : List String) : List String :=
  if singlesOf rest ≠ [] then rest.drop (singlesOf rest).length else rest

/-- The standalone title line consumed before the section scan, when the
next non-blank line is not a known section key. -/
def titleOf (afterBlank : List String) : String :=
  match afterBlank with
  | [] => ""
  | t :: _ =>
    let possible := pyStrip t
    let key := rstripColons (pyLower possible)
    if !strMem key KNOWN_SECTION_KEYS && !startsW key "certificat" then possible
    else ""

/-- The lines handed to the section scan: when a title was consumed, the
following blank lines are skipped as well. -/
def tailAfterTitle (afterBlank : List String) : List String :=
  match afterBlank with
  | [] => []
  | t :: rest2 =>
    let key := rstripColons (pyLower (pyStrip t))
    if !strMem key KNOWN_SECTION_KEYS && !startsW key "certificat" then
      rest2.dropWhile (fun l => pyStrip l = "")
    else t :: rest2

/-- Python `parse_resume(lines)`: name (with the vertical single-letter
special case), contact block up to the first blank line (recording the
company), nationality blank insertion, optional standalone title line,
then the section scan. -/
def parseResume (lines : List String) : ResumeData :=
  match lines.dropWhile (fun l => pyStrip l = "") with
  | [] => sectionLoop none [] {} []
  | first :: rest =>
    let rem := remAfterName rest
    let contactRaw := (rem.takeWhile (fun l => pyStrip l ≠ "")).map pyStrip
    let rem2 := rem.dropWhile (fun l => pyStrip l ≠ "")
    let afterBlank := rem2.dropWhile (fun l => pyStrip l = "")
    sectionLoop none []
      { name := nameOf first rest, contact := nationalityInsert contactRaw,
        company := companyFold "" contactRaw, title := titleOf afterBlank }
      (tailAfterTitle afterBlank)

end Resume

namespace Resume

/-- Whether a character is representable in cp1252: ASCII, the
`U+00A0..U+00FF` range, and the 27 codepoints mapped into `0x80..0x9F`. -/
def cp1252Encodable (c : Char) : Bool :=
  c.val < 0x80 || (0xa0 ≤ c.val && c.val ≤ 0xff) ||
  c.val = 0x20ac || c.val = 0x201a || c.val = 0x192 || c.val = 0x201e ||
  c.val = 0x2026 || c.val = 0x2020 || c.val = 0x2021 || c.val = 0x2c6 ||
  c.val = 0x2030 || c.val = 0x160 || c.val = 0x2039 || c.val = 0x152 ||
  c.val = 0x17d || c.val = 0x2018 || c.val = 0x2019 || c.val = 0x201c ||
  c.val = 0x201d || c.val = 0x2022 || c.val = 0x2013 || c.val = 0x2014 ||
  c.val = 0x2dc || c.val = 0x2122 || c.val = 0x161 || c.val = 0x203a ||
  c.val = 0x153 || c.val = 0x17e || c.val = 0x178

/-- The fixed replacement table of `_pdf_safe_text` (en/em dash, curly
quotes, bullet, no-break space); every entry maps one character to one
character, so the sequence of `str.replace` calls is a per-character
substitution. -/
def substChar (c : Char) : Char :=
  if c.val = 0x2013 then '-'
  else if c.val = 0x2014 then '-'
  else if c.val = 0x2018 then '\''
  else if c.val = 0x2019 then '\''
  else if c.val = 0x201c then '"'
  else if c.val = 0x201d then '"'
  else if c.val = 0x2022 then '•'
  else if c.val = 0xa0 then ' '
  else c

/-- One character of `_pdf_safe_text`: substitution table, then
`encode("cp1252", errors="replace").decode("cp1252")`, which turns any
non-encodable character into `?`. -/
def pySafeChar (c : Char) : Char :=
  let c2 := substChar c
  if cp1252Encodable c2 then c2 else '?'

/-- `_pdf_safe_text` on a character list. -/
def safeL (l : List Char) : List Char := l.map pySafeChar

/-- Python `_pdf_safe_text(text)`. -/
def pySafeText (s : String) : String := ⟨safeL s.data⟩

/-- The escape chain of `_pdf_escape_text`:
`replace("\\","\\\\").replace("(","\\(").replace(")","\\)")`. -/
def escapeL (l : List Char) : List Char :=
  replace1 ')' ['\\', ')'] (replace1 '(' ['\\', '('] (replace1 '\\' ['\\', '\\'] l))

/-- Python `_pdf_escape_text(text)` (safe substitution, then escaping). -/
def pdfEscapeText (s : String) : String := ⟨escapeL (pySafeText s).data⟩

/-- The per-character specification of the escape: backslash and the two
parentheses receive a preceding backslash, everything else is unchanged. -/
def escChar (c : Char) : List Char :=
  if c = '\\' then ['\\', '\\']
  else if c = '(' then ['\\', '(']
  else if c = ')' then ['\\', ')']
  else [c]

/-- Well-formedness of an escaped string-literal body: a backslash always
consumes a following character, and no bare `\`, `(` or `)` occurs. -/
def wfEsc : List Char → Bool
  | [] => true
  | [c] => !(c = '\\' || c = '(' || c = ')')
  | c :: d :: rest =>
    if c = '\\' then wfEsc rest
    else (!(c = '(' || c = ')')) && wfEsc (d :: rest)

/-- The greedy wrap loop of `_wrap_pdf_text`: append the next word to
the current line when `current + " " + word` stays within `max_chars`,
otherwise emit the current line and start a new one with the word. -/
def wrapAuxL (cur : List Char) : List (List Char) → ℕ → List (List Char)
  | [], _ => [cur]
  | w :: ws, m =>
    let candidate := cur ++ ' ' :: w
    if candidate.length ≤ m then wrapAuxL candidate ws m
    else cur :: wrapAuxL w ws m

/-- Python `_wrap_pdf_text(text, max_chars)` at the character level:
substitution-clean and strip the text, return `[""]` when nothing
remains, otherwise split into words and wrap greedily starting from the
first word. -/
def wrapTextL (l : List Char) (m : ℕ) : List (List Char) :=
  let t := stripL (safeL l)
  if t = [] then [[]]
  else
    match splitWsL t with
    | [] => [t]
    | w :: ws => wrapAuxL w ws m

/-- Python `_wrap_pdf_text(text, max_chars)`. -/
def wrapPdfText (s : String) (m : ℕ) : List String := (wrapTextL s.data m).map (⟨·⟩)

/-- The fixed content width of `_render_pdf_builtin`:
`page_w - margin_l - margin_r = 595 - 40 - 40`. -/
def contentW : ℚ := 595 - 40 - 40

/-- Python `int()` truncation toward zero on the rational model. -/
def pyInt (q : ℚ) : ℤ := if 0 ≤ q then ⌊q⌋ else -⌊-q⌋

/-- The paragraph `max_chars` computed at the `para` branch of
`_render_pdf_builtin`:
`max(20, int((content_w - indent - (10 if bullet else 0)) / (size * 0.52)))`
(`0.52 = 13/25`). -/
def paraMaxChars (size indent : ℚ) (bullet : Bool) : ℕ :=
  (max 20 (pyInt ((contentW - indent - (if bullet then 10 else 0)) / (size * (13/25))))).toNat

/-- The wrapped lines emitted for one paragraph draw instruction of the
given size, indent and bullet flag. -/
def renderParaLines (text : String) (size indent : ℚ) (bullet : Bool) : List String :=
  wrapPdfText text (paraMaxChars size indent bullet)

/-- Modelled from the spec: the claimed `max_chars` formula
`floor((content_width - indent) / (font_size * k))` with `k = 0.52` for
regular weight, stated for comparison with `paraMaxChars`. -/
def specMaxChars (size indent : ℚ) : ℤ := ⌊(contentW - indent) / (size * (13/25))⌋

end Resume

namespace Resume

/-- The fixed file header `b"%PDF-1.4\n%\xe2\xe3\xcf\xd3\n"` (15 bytes;
each model character stands for one latin-1 byte). -/
def headerBytes : List Char :=
  "%PDF-1.4\n".data ++ ['%', '\xe2', '\xe3', '\xcf', '\xd3', '\n']

/-- The bytes written for one object: `f"{obj_id} 0 obj\n"`, the object
body, then `b"\nendobj\n"`. -/
def objChunk (id : Nat) (body : List Char) : List Char :=
  (Nat.repr id).data ++ " 0 obj\n".data ++ body ++ "\nendobj\n".data

/-- The object chunks for the object bodies `objs`, whose first element
has object id `id` (the body loop `for obj_id in range(1, len(objects))`). -/
def pdfBodyFrom (id : Nat) : List (List Char) → List Char
  | [] => []
  | b :: rest => objChunk id b ++ pdfBodyFrom (id + 1) rest

/-- The byte offset, relative to the start of the object region, of the
`k`-th object chunk when the first chunk has object id `id`: the sum of
the lengths of the preceding chunks.  This reproduces the incremental
`offsets[obj_id] = len(out)` bookkeeping of the encoder. -/
def relOff (id : Nat) (objs : List (List Char)) (k : Nat) : Nat :=
  match objs, k with
  | _, 0 => 0
  | [], _ + 1 => 0
  | b :: rest, k + 1 => (objChunk id b).length + relOff (id + 1) rest k

/-- The recorded byte offset of object `k+1` (0-based `k` over the
dummy-free object list): header length plus the preceding chunks. -/
def offsetAt (objs : List (List Char)) (k : Nat) : Nat :=
  headerBytes.length + relOff 1 objs k

/-- The byte offset at which the cross-reference section starts
(`xref_offset = len(out)` after the last object). -/
def xrefOffset (objs : List (List Char)) : Nat :=
  headerBytes.length + (pdfBodyFrom 1 objs).length

/-- Python `f"{n:010d}"` for the nonnegative offsets involved. -/
def pad10 (n : Nat) : List Char :=
  let d := (Nat.repr n).data
  if d.length < 10 then List.replicate (10 - d.length) '0' ++ d else d

/-- The cross-reference entry lines `f"{offsets[obj_id]:010d} 00000 n \n"`
for object ids `1..len(objs)`. -/
def xrefEntryLines (objs : List (List Char)) : List (List Char) :=
  (List.range objs.length).map (fun k => pad10 (offsetAt objs k) ++ " 00000 n \n".data)

/-- The cross-reference section: `xref`, the subsection line `0 Size`,
the free-list sentinel for object 0 and one entry per object. -/
def xrefSect (objs : List (List Char)) : List Char :=
  ("xref\n0 " ++ Nat.repr (objs.length + 1) ++ "\n").data ++
  "0000000000 65535 f \n".data ++ (xrefEntryLines objs).flatten

/-- The trailer: `/Size` is `len(objects)` including the dummy slot 0,
`/Root` is the catalog (object 1), and `startxref` records the byte
offset of the xref section. -/
def trailerSect (objs : List (List Char)) : List Char :=
  ("trailer\n<< /Size " ++ Nat.repr (objs.length + 1) ++ " /Root 1 0 R >>\nstartxref\n"
    ++ Nat.repr (xrefOffset objs) ++ "\n%%EOF\n").data

/-- The complete output buffer: header, object chunks in id order, xref
section, trailer.  `objs` is the dummy-free object-body list (the
Python `objects` list without its unused slot 0); object ids are
`index + 1`. -/
def pdfAssemble (objs : List (List Char)) : List Char :=
  headerBytes ++ pdfBodyFrom 1 objs ++ xrefSect objs ++ trailerSect objs

/-- The regular font object body (object 3). -/
def fontRegularObj : List Char :=
  "<< /Type /Font /Subtype /Type1 /BaseFont /Helvetica /Encoding /WinAnsiEncoding >>".data

/-- The bold font object body (object 4). -/
def fontBoldObj : List Char :=
  "<< /Type /Font /Subtype /Type1 /BaseFont /Helvetica-Bold /Encoding /WinAnsiEncoding >>".data

/-- The page object body: parent is the page tree (object 2), fonts are
objects 3 and 4, and `contentId` is the page's content stream object. -/
def pageObj (contentId : Nat) : List Char :=
  ("<< /Type /Page /Parent 2 0 R /MediaBox [0 0 595 842] "
    ++ "/Resources << /Font << /F1 3 0 R /F2 4 0 R >> >> "
    ++ "/Contents " ++ Nat.repr contentId ++ " 0 R >>").data

/-- The content-stream object body for one page stream. -/
def contentObj (stream : List Char) : List Char :=
  ("<< /Length " ++ Nat.repr stream.length ++ " >>\nstream\n").data
    ++ stream ++ "\nendstream".data

/-- The interleaved page/content objects: the `k`-th page (0-based) gets
page id `5 + 2k` and content id `6 + 2k`, matching the allocation order
of `alloc_obj`. -/
def pageContentObjs (k : Nat) : List (List Char) → List (List Char)
  | [] => []
  | s :: rest => pageObj (6 + 2 * k) :: contentObj s :: pageContentObjs (k + 1) rest

/-- The `/Kids` references `f"{pid} 0 R"` for the page ids `5, 7, ...`. -/
def kidsList (n : Nat) : List String :=
  (List.range n).map (fun k => Nat.repr (5 + 2 * k) ++ " 0 R")

/-- The page-tree object body (object 2). -/
def pagesObj (n : Nat) : List Char :=
  ("<< /Type /Pages /Kids [" ++ joinSep " " (kidsList n) ++ "] /Count "
    ++ Nat.repr n ++ " >>").data

/-- The catalog object body (object 1). -/
def catalogObj : List Char := "<< /Type /Catalog /Pages 2 0 R >>".data

/-- The dummy-free object table built by `_render_pdf_builtin` from the
emitted page streams: catalog, page tree, the two fonts, then one page
object and one content-stream object per page, in allocation order. -/
def pdfObjects (streams : List (List Char)) : List (List Char) :=
  catalogObj :: pagesObj streams.length :: fontRegularObj :: fontBoldObj ::
    pageContentObjs 0 streams

/-- The full output buffer of the encoder for the given page streams. -/
def renderPdfBytes (streams : List (List Char)) : List Char :=
  pdfAssemble (pdfObjects streams)

end Resume

namespace Resume

theorem replace1_append (tgt : Char) (rep : List Char) (a b : List Char) :
    replace1 tgt rep (a ++ b) = replace1 tgt rep a ++ replace1 tgt rep b := by
  induction a with
  | nil => rfl
  | cons c rest ih => simp [replace1, ih]

theorem escapeL_append (a b : List Char) :
    escapeL (a ++ b) = escapeL a ++ escapeL b := by
  simp [escapeL, replace1_append]

theorem escapeL_single (c : Char) : escapeL [c] = escChar c := by
  by_cases h1 : c = '\\'
  · simp [escapeL, replace1, escChar, h1]
  · by_cases h2 : c = '('
    · simp [escapeL, replace1, escChar, h1, h2]
    · by_cases h3 : c = ')'
      · simp [escapeL, replace1, escChar, h1, h2, h3]
      · simp [escapeL, replace1, escChar, h1, h2, h3]

theorem escapeL_eq_flatMap (l : List Char) : escapeL l = l.flatMap escChar := by
  induction l with
  | nil => rfl
  | cons c rest ih =>
    have : (c :: rest) = [c] ++ rest := rfl
    rw [this, escapeL_append, escapeL_single, ih]
    rfl

theorem wfEsc_flatMap_escChar (l : List Char) : wfEsc (l.flatMap escChar) = true := by
  induction l with
  | nil => rfl
  | cons c rest ih =>
    show wfEsc (escChar c ++ rest.flatMap escChar) = true
    by_cases h1 : c = '\\'
    · simpa [escChar, h1, wfEsc] using ih
    · by_cases h2 : c = '('
      · simpa [escChar, h1, h2, wfEsc] using ih
      · by_cases h3 : c = ')'
        · simpa [escChar, h1, h2, h3, wfEsc] using ih
        · cases hr : rest.flatMap escChar with
          | nil => simp [escChar, h1, h2, h3, wfEsc]
          | cons d t =>
            rw [hr] at ih
            simpa [escChar, h1, h2, h3, wfEsc] using ih

/-- C10: `_pdf_escape_text` equals the cp1252-substituted text with each
backslash doubled and each parenthesis backslash-escaped (backslashes
first, so the escaping backslashes are not re-escaped), and consequently
every escaped text — every `Tj` operand written into a content stream —
is a well-formed delimited string-literal body: every backslash consumes
a following character and no unescaped `(` or `)` remains. -/
theorem pdf_escape_escapes (s : String) :
    pdfEscapeText s = ⟨(pySafeText s).data.flatMap escChar⟩ ∧
    wfEsc (pdfEscapeText s).data = true := by
  have h : pdfEscapeText s = ⟨(pySafeText s).data.flatMap escChar⟩ := by
    show (⟨escapeL (pySafeText s).data⟩ : String) = _
    rw [escapeL_eq_flatMap]
  refine ⟨h, ?_⟩
  rw [h]
  exact wfEsc_flatMap_escChar _

/-- C6: the eleven-line Jane Doe scenario parses to the expected
document (name, single phone contact fact, title, summary, and one
experience entry with duration and two bullets). -/
theorem parse_scenario_jane_doe :
    parseResume ["Jane Doe", "Phone: 555-1234", "", "Software Engineer",
        "Professional Summary", "Built things.", "Experience", "Acme Corp",
        "2020-2022", "- Did X", "- Did Y"] =
      { name := "Jane Doe", contact := ["Phone: 555-1234"],
        title := "Software Engineer", summary := "Built things.",
        experience := [{ header := "Acme Corp", duration := some "2020-2022",
                         bullets := ["Did X", "Did Y"] }] } ∧
    buildContactItems (parseResume ["Jane Doe", "Phone: 555-1234", "",
        "Software Engineer", "Professional Summary", "Built things.",
        "Experience", "Acme Corp", "2020-2022", "- Did X", "- Did Y"]).contact =
      [{ label := "Phone", label_key := "phone", value := "555-1234" }] := by
  constructor <;> decide

/-- C3: in an experience block with at least two non-blank lines, the
second line becomes the duration exactly when it contains a run of four
consecutive digits; otherwise the duration is absent and the bullets are
exactly the glyph-stripped lines after the header (lines consisting only
of glyphs strip to nothing and are dropped, and a glyph-led header
contributes its stripped text as the first bullet, per the flush rules). -/
theorem experience_duration_iff (first second : String) (rest : List String) :
    ((parseExpBlock first (second :: rest)).duration = some second ↔
      containsFourDigits second = true) ∧
    (containsFourDigits second = false →
      (parseExpBlock first (second :: rest)).duration = none ∧
      (parseExpBlock first (second :: rest)).bullets =
        (if startsGlyph (pyStrip first) then
          (if cleanBullet first = "" then [] else [cleanBullet first])
         else []) ++ ((second :: rest).map cleanBullet).filter (· ≠ "")) := by
  by_cases h : containsFourDigits second = true
  · constructor
    · unfold parseExpBlock
      by_cases hg : startsGlyph (pyStrip first) <;> simp [h, hg]
    · intro hh
      rw [h] at hh
      exact absurd hh (by simp)
  · have hf : containsFourDigits second = false := by
      simpa using h
    constructor
    · unfold parseExpBlock
      by_cases hg : startsGlyph (pyStrip first) <;> simp [hf, hg]
    · intro _
      unfold parseExpBlock
      by_cases hg : startsGlyph (pyStrip first)
      · by_cases he : cleanBullet first = "" <;> simp [hf, hg, he]
      · simp [hf, hg]

end Resume

namespace Resume

/-- C5: when the first non-blank line of an experience block starts with
a bullet glyph, the entry's header is empty and the glyph-stripped line
(when it strips to something) is the first bullet — the line is used as
a bullet instead of as the header, so the two roles are exclusive. -/
theorem bullet_header_exclusive (first : String) (rest : List String)
    (h : startsGlyph (pyStrip first) = true) :
    (parseExpBlock first rest).header = "" ∧
    (cleanBullet first ≠ "" →
      (parseExpBlock first rest).bullets.head? = some (cleanBullet first)) := by
  unfold parseExpBlock
  refine ⟨by simp [h], fun he => ?_⟩
  simp [h, he]

/-- Witness for C5: the glyph-led first line `- Led the team` yields an
empty header and `Led the team` as the first bullet. -/
theorem bullet_header_exclusive_witness :
    startsGlyph (pyStrip "- Led the team") = true ∧
    (parseExpBlock "- Led the team" ["- Did X"]).header = "" ∧
    (parseExpBlock "- Led the team" ["- Did X"]).bullets.head? =
      some (cleanBullet "- Led the team") := by
  have h := bullet_header_exclusive "- Led the team" ["- Did X"] (by decide)
  exact ⟨by decide, h.1, h.2 (by decide)⟩

/-- Witness for C3: a block whose second line has no 4-digit run gets no
duration, and all later lines (and nothing else) become bullets. -/
theorem experience_duration_iff_witness :
    containsFourDigits "- Did X" = false ∧
    (parseExpBlock "Acme Corp" ["- Did X", "- Did Y"]).duration = none ∧
    (parseExpBlock "Acme Corp" ["- Did X", "- Did Y"]).bullets = ["Did X", "Did Y"] := by
  have h := (experience_duration_iff "Acme Corp" "- Did X" ["- Did Y"]).2 (by decide)
  refine ⟨by decide, h.1, ?_⟩
  rw [h.2]
  decide

end Resume

namespace Resume

theorem buildGo_filter_company (ls : List String) :
    ∀ seen, buildGo seen (ls.filter (fun l => !isCompanyLine l)) = buildGo seen ls := by
  induction ls with
  | nil => intro seen; rfl
  | cons c rest ih =>
    intro seen
    by_cases hc : isCompanyLine c = true
    · have hf : (c :: rest).filter (fun l => !isCompanyLine l) =
          rest.filter (fun l => !isCompanyLine l) := by
        simp [List.filter, hc]
      have hskip : buildGo seen (c :: rest) = buildGo seen rest := by
        have hs : startsW (pyLower (pyStrip c)) "company name:" = true := hc
        simp [buildGo, hs]
      rw [hf, ih, hskip]
    · have hf : (c :: rest).filter (fun l => !isCompanyLine l) =
          c :: rest.filter (fun l => !isCompanyLine l) := by
        simp [List.filter, hc]
      rw [hf]
      simp only [buildGo]
      split_ifs <;> simp [ih]

/-- C9: a contact line that (after trimming) starts case-insensitively
with `company name:` produces no contact fact — filtering such lines out
of the input never changes the classifier's output — while the parser
still keeps the line in the document's contact sequence (and uses it
only to set the company field). -/
theorem company_contact_line_skipped :
    (∀ ls : List String,
      buildContactItems (ls.filter (fun l => !isCompanyLine l)) = buildContactItems ls) ∧
    (parseResume ["Rohit Tawade", "Company Name: Acme", "Phone: 1"]).contact =
      ["Company Name: Acme", "Phone: 1"] ∧
    (parseResume ["Rohit Tawade", "Company Name: Acme", "Phone: 1"]).company = "Acme" ∧
    buildContactItems (parseResume ["Rohit Tawade", "Company Name: Acme", "Phone: 1"]).contact =
      [{ label := "Phone", label_key := "phone", value := "1" }] :=
  ⟨fun ls => buildGo_filter_company ls [], by decide, by decide, by decide⟩

theorem strMem_iff (s : String) (l : List String) : strMem s l = true ↔ s ∈ l := by
  simp [strMem]

theorem dedupKeep_mem (l : List String) :
    ∀ seen x, x ∈ dedupKeep seen l ↔ (x ∈ l ∧ x ∉ seen) := by
  induction l with
  | nil => intro seen x; simp [dedupKeep]
  | cons e rest ih =>
    intro seen x
    by_cases he : e ∈ seen
    · rw [dedupKeep, if_pos ((strMem_iff e seen).mpr he), ih]
      constructor
      · exact fun hx => ⟨List.mem_cons_of_mem _ hx.1, hx.2⟩
      · rintro ⟨hx, hns⟩
        rcases List.mem_cons.mp hx with h1 | h1
        · exact absurd (h1 ▸ he) hns
        · exact ⟨h1, hns⟩
    · rw [dedupKeep, if_neg (fun hh => he ((strMem_iff e seen).mp hh))]
      constructor
      · intro hx
        rcases List.mem_cons.mp hx with h1 | h1
        · exact ⟨h1 ▸ List.mem_cons_self e rest, h1 ▸ he⟩
        · rcases (ih _ x).mp h1 with ⟨hl, hn⟩
          exact ⟨List.mem_cons_of_mem _ hl, fun hs => hn (List.mem_cons_of_mem e hs)⟩
      · rintro ⟨hx, hns⟩
        rcases List.mem_cons.mp hx with h1 | h1
        · exact h1 ▸ List.mem_cons_self e _
        · by_cases hxe : x = e
          · exact hxe ▸ List.mem_cons_self e _
          · refine List.mem_cons_of_mem _ ((ih _ x).mpr ⟨h1, ?_⟩)
            intro hs
            rcases List.mem_cons.mp hs with h2 | h2
            · exact hxe h2
            · exact hns h2

theorem dedupKeep_sublist (l : List String) :
    ∀ seen, (dedupKeep seen l).Sublist l := by
  induction l with
  | nil => intro seen; simp [dedupKeep]
  | cons e rest ih =>
    intro seen
    by_cases he : e ∈ seen
    · rw [dedupKeep, if_pos ((strMem_iff e seen).mpr he)]
      exact (ih seen).cons e
    · rw [dedupKeep, if_neg (fun hh => he ((strMem_iff e seen).mp hh))]
      exact (ih (e :: seen)).cons₂ e

theorem dedupKeep_nodup (l : List String) :
    ∀ seen, (dedupKeep seen l).Nodup := by
  induction l with
  | nil => intro seen; simp [dedupKeep]
  | cons e rest ih =>
    intro seen
    by_cases he : e ∈ seen
    · rw [dedupKeep, if_pos ((strMem_iff e seen).mpr he)]
      exact ih seen
    · rw [dedupKeep, if_neg (fun hh => he ((strMem_iff e seen).mp hh))]
      rw [List.nodup_cons]
      refine ⟨fun hmem => ?_, ih (e :: seen)⟩
      exact ((dedupKeep_mem rest (e :: seen) e).mp hmem).2 (List.mem_cons_self e seen)

/-- Amended C2: the survivors joined with `" / "` are the found e-mail
tokens de-duplicated by exact string equality (after `mailto:` and
bracket stripping), so each distinct spelling appears exactly once, in
first-seen order; tokens differing only in letter case are distinct
spellings and each of them survives. -/
theorem email_dedup_amended (v : String)
    (h : findEmails (emailCleanValue v) ≠ []) :
    processEmailValue v = joinSep " / " (dedupList (findEmails (emailCleanValue v))) ∧
    (dedupList (findEmails (emailCleanValue v))).Nodup ∧
    (dedupList (findEmails (emailCleanValue v))).Sublist (findEmails (emailCleanValue v)) ∧
    (∀ x, x ∈ dedupList (findEmails (emailCleanValue v)) ↔
      x ∈ findEmails (emailCleanValue v)) := by
  refine ⟨by simp [processEmailValue, h], dedupKeep_nodup _ [], dedupKeep_sublist _ [], ?_⟩
  intro x
  rw [dedupList, dedupKeep_mem]
  simp

/-- Witness for the amended C2. -/
theorem email_dedup_amended_witness :
    findEmails (emailCleanValue "x@y.com <x@y.com>") ≠ [] ∧
    processEmailValue "x@y.com <x@y.com>" =
      joinSep " / " (dedupList (findEmails (emailCleanValue "x@y.com <x@y.com>"))) ∧
    (dedupList (findEmails (emailCleanValue "x@y.com <x@y.com>"))).Nodup := by
  have h := email_dedup_amended "x@y.com <x@y.com>" (by decide)
  exact ⟨by decide, h.1, h.2.1⟩

/-- Counterexample to C2 as stated: in the value
`A@b.com a@b.com` the two tokens are duplicates differing only by
letter case, yet both survive into the `" / "`-joined output — the
de-duplication is by exact string equality, so no single canonical form
is produced. -/
theorem email_case_duplicates_cex :
    buildContactItems ["Email: A@b.com a@b.com"] =
      [{ label := "Email", label_key := "email", value := "A@b.com / a@b.com" }] ∧
    dedupList (findEmails (emailCleanValue "A@b.com a@b.com")) = ["A@b.com", "a@b.com"] ∧
    pyLower "A@b.com" = pyLower "a@b.com" ∧ "A@b.com" ≠ "a@b.com" :=
  ⟨by decide, by decide, by decide, by decide⟩

end Resume

namespace Resume

theorem wrapAuxL_mem_bound (ws : List (List Char)) :
    ∀ cur m, ∀ l ∈ wrapAuxL cur ws m, l.length ≤ m ∨ l = cur ∨ l ∈ ws := by
  induction ws with
  | nil =>
    intro cur m l hl
    simp only [wrapAuxL, List.mem_singleton] at hl
    exact Or.inr (Or.inl hl)
  | cons w ws ih =>
    intro cur m l hl
    rw [wrapAuxL] at hl
    by_cases hfit : (cur ++ ' ' :: w).length ≤ m
    · rw [if_pos hfit] at hl
      rcases ih _ m l hl with h | h | h
      · exact Or.inl h
      · exact Or.inl (h ▸ hfit)
      · exact Or.inr (Or.inr (List.mem_cons_of_mem _ h))
    · rw [if_neg hfit] at hl
      rcases List.mem_cons.mp hl with h | h
      · exact Or.inr (Or.inl h)
      · rcases ih _ m l h with h1 | h1 | h1
        · exact Or.inl h1
        · exact Or.inr (Or.inr (h1 ▸ List.mem_cons_self w ws))
        · exact Or.inr (Or.inr (List.mem_cons_of_mem _ h1))

/-- Amended C4: the wrapper is greedy — the next word is appended to the
current line exactly when `current + " " + word` has length at most
`max_chars` and otherwise a new line starts with the word — but
`max_chars` is `max(20, int((content_w − indent − (10 if bullet else 0))
/ (size × 0.52)))`: bulleted paragraphs lose 10 further points of width
and the value is clamped below at 20.  Every emitted line fits in
`max_chars` except the initial line or a single word that alone exceeds
it. -/
theorem para_wrap_greedy_amended (size indent : ℚ) (bullet : Bool)
    (cur w : List Char) (ws : List (List Char)) :
    (wrapAuxL cur (w :: ws) (paraMaxChars size indent bullet) =
      if (cur ++ ' ' :: w).length ≤ paraMaxChars size indent bullet then
        wrapAuxL (cur ++ ' ' :: w) ws (paraMaxChars size indent bullet)
      else cur :: wrapAuxL w ws (paraMaxChars size indent bullet)) ∧
    (∀ l ∈ wrapAuxL cur (w :: ws) (paraMaxChars size indent bullet),
      l.length ≤ paraMaxChars size indent bullet ∨ l = cur ∨ l ∈ w :: ws) :=
  ⟨rfl, wrapAuxL_mem_bound (w :: ws) cur (paraMaxChars size indent bullet)⟩

/-- Counterexample to C4 as stated: for a bulleted paragraph instruction
of size 10 and indent 12 (an experience bullet), the code computes
`max_chars = max(20, int((515 − 12 − 10)/5.2)) = 94`, not the claimed
`floor((515 − 12)/5.2) = 96`; on the text `a…a bbbbb` (a 90-letter word
and a 5-letter word, candidate length 96) the code breaks the line while
the claimed formula would keep it whole. -/
theorem para_wrap_maxchars_cex :
    paraMaxChars 10 12 true = 94 ∧
    specMaxChars 10 12 = 96 ∧
    renderParaLines (⟨List.replicate 90 'a'⟩ ++ " bbbbb") 10 12 true =
      [⟨List.replicate 90 'a'⟩, "bbbbb"] ∧
    wrapPdfText (⟨List.replicate 90 'a'⟩ ++ " bbbbb") 96 =
      [⟨List.replicate 90 'a'⟩ ++ " bbbbb"] := by
  have h : paraMaxChars 10 12 true = 94 := by
    norm_num [paraMaxChars, pyInt, contentW]
    rfl
  refine ⟨h, by norm_num [specMaxChars, contentW], ?_, by decide⟩
  rw [renderParaLines, h]
  decide

end Resume

namespace Resume

/-- Whether a line's lowercased, colon-stripped key switches the section
state machine to some section (the five dispatch tests of the scan). -/
def isSectionHeader (line : String) : Bool :=
  let key := lineKey line
  key = "professional summary" || key = "summary" ||
  key = "professional experience" || key = "experience" ||
  key = "technical skills" || key = "skills" ||
  startsW key "certificat" || key = "education" || key = "qualification"

theorem flushBuffer_none (buf : List String) (d : ResumeData) :
    flushBuffer none buf d = d := by
  by_cases h : pyStrip (joinSep "\n" buf) = "" <;> simp [flushBuffer, h]

theorem sectionLoop_none (ls : List String) :
    ∀ buf d, (∀ l ∈ ls, isSectionHeader l = false) →
      sectionLoop none buf d ls = d := by
  induction ls with
  | nil => intro buf d _; exact flushBuffer_none buf d
  | cons line rest ih =>
    intro buf d hl
    have h1 := hl line (List.mem_cons_self line rest)
    simp only [isSectionHeader, lineKey, Bool.or_eq_false_iff,
      decide_eq_false_iff_not] at h1
    obtain ⟨⟨⟨⟨⟨⟨⟨⟨k1, k2⟩, k3⟩, k4⟩, k5⟩, k6⟩, k7⟩, k8⟩, k9⟩ := h1
    rw [sectionLoop]
    rw [if_neg (by simp [k1, k2]), if_neg (by simp [k3, k4]),
      if_neg (by simp [k5, k6]), if_neg (by simp [k7]),
      if_neg (by simp [k8, k9])]
    exact ih _ d (fun l hm => hl l (List.mem_cons_of_mem _ hm))

theorem tailAfterTitle_suffix (afterBlank : List String) :
    tailAfterTitle afterBlank <:+ afterBlank := by
  match afterBlank with
  | [] => exact List.nil_suffix
  | t :: rest2 =>
    rw [tailAfterTitle]
    split_ifs
    · exact (List.dropWhile_suffix _).trans (List.suffix_cons t rest2)
    · exact List.suffix_refl _

theorem remAfterName_suffix (rest : List String) : remAfterName rest <:+ rest := by
  rw [remAfterName]
  split_ifs
  · exact List.drop_suffix _ _
  · exact List.suffix_refl _

/-- C7: `parse_resume` is a total function of its input lines (it is
defined for every finite list of strings, so it terminates and returns a
`ResumeData` without any error path), and when no line carries a section
key every section-derived field keeps its empty default. -/
theorem parser_missing_sections_default (lines : List String)
    (h : ∀ l ∈ lines, isSectionHeader l = false) :
    (parseResume lines).summary = "" ∧
    (parseResume lines).experience = [] ∧
    (parseResume lines).skills = [] ∧
    (parseResume lines).skills_raw = "" ∧
    (parseResume lines).certifications = [] ∧
    (parseResume lines).education = [] := by
  have hsuf : lines.dropWhile (fun l => pyStrip l = "") <:+ lines :=
    List.dropWhile_suffix _
  rw [parseResume]
  cases hA : lines.dropWhile (fun l => pyStrip l = "") with
  | nil =>
    dsimp only
    rw [sectionLoop_none [] [] {} (by intro l hm; cases hm)]
    exact ⟨rfl, rfl, rfl, rfl, rfl, rfl⟩
  | cons first rest =>
    dsimp only
    rw [hA] at hsuf
    have hrest : rest <:+ lines := ((List.suffix_cons first rest).trans hsuf)
    have hrem : remAfterName rest <:+ lines := (remAfterName_suffix rest).trans hrest
    have hrem2 : (remAfterName rest).dropWhile (fun l => pyStrip l ≠ "") <:+ lines :=
      (List.dropWhile_suffix _).trans hrem
    have hab : ((remAfterName rest).dropWhile (fun l => pyStrip l ≠ "")).dropWhile
        (fun l => pyStrip l = "") <:+ lines :=
      (List.dropWhile_suffix _).trans hrem2
    have htail : tailAfterTitle (((remAfterName rest).dropWhile
        (fun l => pyStrip l ≠ "")).dropWhile (fun l => pyStrip l = "")) <:+ lines :=
      (tailAfterTitle_suffix _).trans hab
    rw [sectionLoop_none _ [] _ (fun l hm => h l (htail.subset hm))]
    exact ⟨rfl, rfl, rfl, rfl, rfl, rfl⟩

/-- Witness for C7: a document with a name, contact line, title and an
unattached text line but no section keys parses with every
section-derived field at its default. -/
theorem parser_missing_sections_default_witness :
    (∀ l ∈ ["Jane Doe", "Phone: 555", "", "Just a Title", "random text"],
      isSectionHeader l = false) ∧
    (parseResume ["Jane Doe", "Phone: 555", "", "Just a Title", "random text"]).summary = "" ∧
    (parseResume ["Jane Doe", "Phone: 555", "", "Just a Title", "random text"]).experience = [] ∧
    (parseResume ["Jane Doe", "Phone: 555", "", "Just a Title", "random text"]).certifications = [] := by
  have h := parser_missing_sections_default
    ["Jane Doe", "Phone: 555", "", "Just a Title", "random text"] (by decide)
  exact ⟨by decide, h.1, h.2.1, h.2.2.2.2.1⟩

end Resume


namespace Resume

/-- Tokens produced by whitespace splitting: nonempty and free of
whitespace characters. -/
def GoodToks (ws : List (List Char)) : Prop :=
  ∀ t ∈ ws, t ≠ [] ∧ ∀ c ∈ t, isPySpace c = false

theorem splitWsGo_nil (acc : List Char) :
    splitWsGo acc [] = if acc = [] then [] else [acc.reverse] := rfl

theorem splitWsGo_cons (acc : List Char) (c : Char) (rest : List Char) :
    splitWsGo acc (c :: rest) =
      if isPySpace c then
        (if acc = [] then splitWsGo [] rest else acc.reverse :: splitWsGo [] rest)
      else splitWsGo (c :: acc) rest := rfl

theorem splitWsGo_all_space (ss : List Char) (h : ∀ c ∈ ss, isPySpace c = true) :
    ∀ acc, splitWsGo acc ss = if acc = [] then [] else [acc.reverse] := by
  induction ss with
  | nil => intro acc; rfl
  | cons s ss ih =>
    intro acc
    have hs : isPySpace s = true := h s (List.mem_cons_self s ss)
    have ih2 := ih (fun c hm => h c (List.mem_cons_of_mem _ hm)) []
    rw [if_pos rfl] at ih2
    by_cases ha : acc = []
    · rw [splitWsGo_cons, if_pos hs, if_pos ha, ih2, if_pos ha]
    · rw [splitWsGo_cons, if_pos hs, if_neg ha, ih2, if_neg ha]

theorem splitWsGo_append_space (l : List Char) :
    ∀ acc (ss : List Char), (∀ c ∈ ss, isPySpace c = true) →
      splitWsGo acc (l ++ ss) = splitWsGo acc l := by
  induction l with
  | nil =>
    intro acc ss h
    rw [List.nil_append, splitWsGo_all_space ss h acc, splitWsGo_nil]
  | cons c l ih =>
    intro acc ss h
    rw [List.cons_append, splitWsGo_cons, splitWsGo_cons]
    by_cases hc : isPySpace c = true
    · rw [if_pos hc, if_pos hc]
      by_cases ha : acc = []
      · rw [if_pos ha, if_pos ha, ih [] ss h]
      · rw [if_neg ha, if_neg ha, ih [] ss h]
    · rw [if_neg (by simp [hc]), if_neg (by simp [hc]), ih (c :: acc) ss h]

theorem splitWsGo_dropWhile (l : List Char) :
    splitWsGo [] (l.dropWhile isPySpace) = splitWsGo [] l := by
  induction l with
  | nil => rfl
  | cons c l ih =>
    by_cases hc : isPySpace c = true
    · rw [List.dropWhile_cons_of_pos hc, ih, splitWsGo_cons, if_pos hc, if_pos rfl]
    · rw [List.dropWhile_cons_of_neg (by simp [hc])]

theorem rstripL_decomp (y : List Char) :
    ∃ ss, (∀ c ∈ ss, isPySpace c = true) ∧ y = rstripL y ++ ss := by
  refine ⟨(y.reverse.takeWhile isPySpace).reverse, ?_, ?_⟩
  · intro c hm
    rw [List.mem_reverse] at hm
    exact List.mem_takeWhile_imp hm
  · conv_lhs =>
      rw [← List.reverse_reverse y,
        ← List.takeWhile_append_dropWhile (p := isPySpace) (l := y.reverse)]
    rw [List.reverse_append]
    rfl

theorem splitWsL_stripL (l : List Char) : splitWsL (stripL l) = splitWsL l := by
  obtain ⟨ss, hss, hdec⟩ := rstripL_decomp (lstripL l)
  have h1 : splitWsL (stripL l) = splitWsL (lstripL l) := by
    conv_rhs => rw [hdec]
    exact (splitWsGo_append_space _ [] ss hss).symm
  rw [h1, splitWsL, splitWsL, lstripL, splitWsGo_dropWhile]

theorem splitWsGo_word_space (t : List Char) :
    ∀ acc r, t ≠ [] → (∀ c ∈ t, isPySpace c = false) →
      splitWsGo acc (t ++ ' ' :: r) = (acc.reverse ++ t) :: splitWsGo [] r := by
  induction t with
  | nil => intro acc r h _; exact absurd rfl h
  | cons c t ih =>
    intro acc r _ hg
    have hc : isPySpace c = false := hg c (List.mem_cons_self c t)
    have hsp : isPySpace ' ' = true := by decide
    cases t with
    | nil =>
      rw [List.cons_append, List.nil_append, splitWsGo_cons, if_neg (by simp [hc]),
        splitWsGo_cons, if_pos hsp, if_neg (by simp)]
      simp
    | cons d t2 =>
      have hrec := ih (c :: acc) r (by simp) (fun x hm => hg x (List.mem_cons_of_mem _ hm))
      rw [List.cons_append, splitWsGo_cons, if_neg (by simp [hc]), hrec]
      simp

theorem splitWsGo_word_only (t : List Char) :
    ∀ acc, (∀ c ∈ t, isPySpace c = false) → (acc ≠ [] ∨ t ≠ []) →
      splitWsGo acc t = [acc.reverse ++ t] := by
  induction t with
  | nil =>
    intro acc _ hne
    have ha : acc ≠ [] := by
      rcases hne with h | h
      · exact h
      · exact absurd rfl h
    rw [splitWsGo_nil, if_neg ha]
    simp
  | cons c t ih =>
    intro acc hg _
    have hc : isPySpace c = false := hg c (List.mem_cons_self c t)
    have hrec := ih (c :: acc) (fun x hm => hg x (List.mem_cons_of_mem _ hm))
      (Or.inl (by simp))
    rw [splitWsGo_cons, if_neg (by simp [hc]), hrec]
    simp

theorem joinSpace_cons₂ (x y : List Char) (rest : List (List Char)) :
    joinSpace (x :: y :: rest) = x ++ ' ' :: joinSpace (y :: rest) := rfl

theorem joinSpace_append_single (ws : List (List Char)) (w : List Char) (h : ws ≠ []) :
    joinSpace (ws ++ [w]) = joinSpace ws ++ ' ' :: w := by
  induction ws with
  | nil => exact absurd rfl h
  | cons x ws ih =>
    cases ws with
    | nil => rfl
    | cons y ws2 =>
      have hrec := ih (by simp)
      rw [List.cons_append] at hrec
      rw [List.cons_append, List.cons_append, joinSpace_cons₂, hrec, joinSpace_cons₂]
      simp

theorem splitWsL_joinSpace (ws : List (List Char)) (h : ws ≠ []) (hg : GoodToks ws) :
    splitWsL (joinSpace ws) = ws := by
  induction ws with
  | nil => exact absurd rfl h
  | cons w ws ih =>
    obtain ⟨hw1, hw2⟩ := hg w (List.mem_cons_self w ws)
    cases ws with
    | nil =>
      show splitWsGo [] w = [w]
      simpa using splitWsGo_word_only w [] hw2 (Or.inr hw1)
    | cons y ws2 =>
      rw [splitWsL, joinSpace_cons₂, splitWsGo_word_space w [] _ hw1 hw2]
      have hrec := ih (by simp) (fun t hm => hg t (List.mem_cons_of_mem _ hm))
      rw [splitWsL] at hrec
      rw [hrec]
      simp

theorem splitWsGo_good (l : List Char) :
    ∀ acc, (∀ c ∈ acc, isPySpace c = false) → GoodToks (splitWsGo acc l) := by
  induction l with
  | nil =>
    intro acc hacc t hm
    by_cases ha : acc = []
    · rw [splitWsGo_nil, if_pos ha] at hm
      cases hm
    · rw [splitWsGo_nil, if_neg ha] at hm
      rw [List.mem_singleton] at hm
      subst hm
      exact ⟨by simpa using ha, fun c hc => hacc c (by simpa using hc)⟩
  | cons c l ih =>
    intro acc hacc t hm
    by_cases hc : isPySpace c = true
    · rw [splitWsGo_cons, if_pos hc] at hm
      by_cases ha : acc = []
      · rw [if_pos ha] at hm
        exact ih [] (by simp) t hm
      · rw [if_neg ha] at hm
        rcases List.mem_cons.mp hm with h1 | h1
        · subst h1
          exact ⟨by simpa using ha, fun x hx => hacc x (by simpa using hx)⟩
        · exact ih [] (by simp) t h1
    · rw [splitWsGo_cons, if_neg (by simp [hc])] at hm
      refine ih (c :: acc) ?_ t hm
      intro x hx
      rcases List.mem_cons.mp hx with h1 | h1
      · exact h1 ▸ (by simpa using hc)
      · exact hacc x h1

theorem wrapAuxL_cons (cur w : List Char) (ws : List (List Char)) (m : ℕ) :
    wrapAuxL cur (w :: ws) m =
      if (cur ++ ' ' :: w).length ≤ m then wrapAuxL (cur ++ ' ' :: w) ws m
      else cur :: wrapAuxL w ws m := rfl

theorem wrapAuxL_words (ws : List (List Char)) :
    ∀ (cws : List (List Char)) (m : ℕ), cws ≠ [] → GoodToks cws → GoodToks ws →
      ((wrapAuxL (joinSpace cws) ws m).map splitWsL).flatten = cws ++ ws := by
  induction ws with
  | nil =>
    intro cws m h hg _
    show ([splitWsL (joinSpace cws)]).flatten = cws ++ []
    rw [splitWsL_joinSpace cws h hg]
    simp
  | cons w ws ih =>
    intro cws m h hg hgw
    have hw := hgw w (List.mem_cons_self w ws)
    have hgw2 : GoodToks ws := fun t hm => hgw t (List.mem_cons_of_mem _ hm)
    rw [wrapAuxL_cons]
    by_cases hfit : (joinSpace cws ++ ' ' :: w).length ≤ m
    · rw [if_pos hfit, ← joinSpace_append_single cws w h]
      have hgood2 : GoodToks (cws ++ [w]) := by
        intro t hm
        rcases List.mem_append.mp hm with h1 | h1
        · exact hg t h1
        · exact (List.mem_singleton.mp h1) ▸ hw
      rw [ih (cws ++ [w]) m (by simp) hgood2 hgw2]
      simp
    · rw [if_neg hfit]
      show (splitWsL (joinSpace cws) :: (wrapAuxL w ws m).map splitWsL).flatten = _
      rw [List.flatten_cons, splitWsL_joinSpace cws h hg]
      have hgood1 : GoodToks [w] := by
        intro t hm
        exact (List.mem_singleton.mp hm) ▸ hw
      have hrec := ih [w] m (by simp) hgood1 hgw2
      have hid : joinSpace [w] = w := rfl
      rw [hid] at hrec
      rw [hrec]
      simp

/-- C8: wrapping never alters word content — for every string and every
`max_chars`, concatenating the whitespace-token lists of the lines
returned by `_wrap_pdf_text` gives exactly the whitespace-token list of
the substitution-cleaned input: no word is altered, dropped or
duplicated by the wrap or by the pagination that copies its lines. -/
theorem wrap_preserves_words (s : String) (m : ℕ) :
    ((wrapTextL s.data m).map splitWsL).flatten = splitWsL (safeL s.data) := by
  rw [wrapTextL]
  by_cases ht : stripL (safeL s.data) = []
  · rw [if_pos ht, ← splitWsL_stripL (safeL s.data), ht]
    rfl
  · rw [if_neg ht]
    cases hw : splitWsL (stripL (safeL s.data)) with
    | nil =>
      show ([splitWsL (stripL (safeL s.data))]).flatten = _
      rw [hw, ← splitWsL_stripL (safeL s.data), hw]
      rfl
    | cons w ws =>
      have hgoodall : GoodToks (w :: ws) := by
        rw [← hw]
        exact splitWsGo_good _ [] (by simp)
      have hgood1 : GoodToks [w] := by
        intro t hm
        exact (List.mem_singleton.mp hm) ▸ hgoodall w (List.mem_cons_self w ws)
      have hrec := wrapAuxL_words ws [w] m (by simp) hgood1
        (fun t hm => hgoodall t (List.mem_cons_of_mem _ hm))
      have hid : joinSpace [w] = w := rfl
      rw [hid] at hrec
      rw [hrec, ← splitWsL_stripL (safeL s.data), hw]
      rfl

end Resume

namespace Resume

theorem isPrefixOf_append_self (a b : List Char) : a.isPrefixOf (a ++ b) = true := by
  induction a with
  | nil => simp [List.isPrefixOf]
  | cons x xs ih => simp [List.isPrefixOf, ih]

theorem drop_relOff (objs : List (List Char)) :
    ∀ (id k : Nat), k < objs.length → ∀ (tail : List Char),
      (pdfBodyFrom id objs ++ tail).drop (relOff id objs k) =
        objChunk (id + k) objs[k]! ++
          (pdfBodyFrom (id + k + 1) (objs.drop (k + 1)) ++ tail) := by
  induction objs with
  | nil => intro id k h tail; cases h
  | cons b rest ih =>
    intro id k h tail
    cases k with
    | zero =>
      simp [relOff, pdfBodyFrom, List.append_assoc]
    | succ k =>
      have hk : k < rest.length := by
        simpa using Nat.lt_of_succ_lt_succ h
      have hrw : relOff id (b :: rest) (k + 1) =
          (objChunk id b).length + relOff (id + 1) rest k := rfl
      rw [hrw]
      show ((objChunk id b ++ pdfBodyFrom (id + 1) rest) ++ tail).drop _ = _
      rw [List.append_assoc, List.drop_append, ih (id + 1) k hk tail]
      have h1 : id + 1 + k = id + (k + 1) := by omega
      have h3 : (b :: rest)[k + 1]! = rest[k]! := by
        simp [List.getElem!_cons_succ]
      rw [h1, h3]
      rw [List.drop_succ_cons]

theorem pdfAssemble_token_at (objs : List (List Char)) (k : Nat)
    (h : k < objs.length) :
    ((Nat.repr (k + 1)).data ++ " 0 obj".data).isPrefixOf
      ((pdfAssemble objs).drop (offsetAt objs k)) = true := by
  rw [pdfAssemble, offsetAt, List.append_assoc, List.append_assoc, List.drop_append,
    drop_relOff objs 1 k h, Nat.add_comm 1 k]
  have hsplit : (" 0 obj\n").data = (" 0 obj").data ++ ['\n'] := rfl
  have hB : objChunk (k + 1) objs[k]! =
      ((Nat.repr (k + 1)).data ++ " 0 obj".data) ++
        ('\n' :: (objs[k]! ++ "\nendobj\n".data)) := by
    rw [objChunk, hsplit]
    simp [List.append_assoc]
  rw [hB, List.append_assoc]
  exact isPrefixOf_append_self _ _

theorem pdfAssemble_xref_at (objs : List (List Char)) :
    "xref".data.isPrefixOf
      ((pdfAssemble objs).drop (xrefOffset objs)) = true := by
  rw [pdfAssemble, xrefOffset, List.append_assoc, List.append_assoc, List.drop_append,
    List.drop_left]
  have hx : xrefSect objs =
      "xref".data ++ (("\n0 " ++ Nat.repr (objs.length + 1) ++ "\n").data ++
        ("0000000000 65535 f \n".data ++ (xrefEntryLines objs).flatten)) := by
    rw [xrefSect]
    simp only [String.data_append, List.append_assoc]
    rfl
  rw [hx, List.append_assoc]
  exact isPrefixOf_append_self _ _

/-- C1: for every document (the encoder's output is determined by the
page content streams, over which this quantifies) the built-in binary
encoder's cross-reference table records, for every object id `N` from 1
up to the object count, exactly the byte offset at which the token
`N 0 obj` begins in the output buffer — entry `N` of the table is the
zero-padded offset at which that token starts — and the `startxref`
value printed in the trailer equals the byte offset at which the `xref`
section begins. -/
theorem xref_offsets_match (streams : List (List Char)) (k : Nat)
    (h : k < (pdfObjects streams).length) :
    (((Nat.repr (k + 1)).data ++ " 0 obj".data).isPrefixOf
      ((pdfAssemble (pdfObjects streams)).drop (offsetAt (pdfObjects streams) k)) = true) ∧
    ((xrefEntryLines (pdfObjects streams))[k]? =
      some (pad10 (offsetAt (pdfObjects streams) k) ++ " 00000 n \n".data)) ∧
    ("xref".data.isPrefixOf
      ((pdfAssemble (pdfObjects streams)).drop (xrefOffset (pdfObjects streams))) = true) ∧
    (trailerSect (pdfObjects streams) =
      ("trailer\n<< /Size " ++ Nat.repr ((pdfObjects streams).length + 1) ++
        " /Root 1 0 R >>\nstartxref\n" ++
        Nat.repr (xrefOffset (pdfObjects streams)) ++ "\n%%EOF\n").data) := by
  refine ⟨pdfAssemble_token_at _ k h, ?_, pdfAssemble_xref_at _, rfl⟩
  rw [xrefEntryLines, List.getElem?_map, List.getElem?_range h]
  rfl

/-- Witness for C1: the single-blank-page document (the encoder's
empty-document case) at object id 1. -/
theorem xref_offsets_match_witness :
    (0 < (pdfObjects [[]]).length) ∧
    (((Nat.repr 1).data ++ " 0 obj".data).isPrefixOf
      ((pdfAssemble (pdfObjects [[]])).drop (offsetAt (pdfObjects [[]]) 0)) = true) ∧
    ("xref".data.isPrefixOf
      ((pdfAssemble (pdfObjects [[]])).drop (xrefOffset (pdfObjects [[]]))) = true) := by
  have h := xref_offsets_match [[]] 0 (by decide)
  exact ⟨by decide, h.1, h.2.2.1⟩

end Resume

namespace Resume

/-- Witness for the amended C4 at a concrete instruction and word list. -/
theorem para_wrap_greedy_amended_witness :
    wrapAuxL "ab".data ["cd".data] (paraMaxChars 10 0 false) =
      (if ("ab".data ++ ' ' :: "cd".data).length ≤ paraMaxChars 10 0 false then
        wrapAuxL ("ab".data ++ ' ' :: "cd".data) [] (paraMaxChars 10 0 false)
      else "ab".data :: wrapAuxL "cd".data [] (paraMaxChars 10 0 false)) ∧
    ("ab cd".data.length ≤ paraMaxChars 10 0 false ∨ "ab cd".data = "ab".data ∨
      "ab cd".data ∈ ["cd".data]) := by
  have hm : paraMaxChars 10 0 false = 99 := by
    norm_num [paraMaxChars, pyInt, contentW]
    rfl
  refine ⟨(para_wrap_greedy_amended 10 0 false "ab".data "cd".data []).1,
    (para_wrap_greedy_amended 10 0 false "ab".data "cd".data []).2 "ab cd".data ?_⟩
  rw [hm]
  decide

end Resume
